import Mathlib

/-
Verification of the cash-flow aggregation and XIRR root-finding engine of
`irr_app.py` (function `xirr`, the category grouping loop, the deal-level
loop and the summary-mean display).

Modelling conventions:
* Dates are represented by their day number (days since the Unix epoch,
  computed by `rataDie` below from a calendar date, with the same day
  difference semantics as Python `datetime` subtraction: `(t - t0).days`
  equals the difference of the day numbers).
* Monetary amounts (pandas floats holding exact decimal inputs) are
  modelled as rationals, and the arithmetic of the NPV function is modelled
  over the real numbers.
* `scipy.optimize.newton(f, 0.1)` is a floating-point secant iteration (no
  derivative is passed, so scipy uses the secant method).  It is modelled
  by an abstract `RootFinder` carrying the two properties the claims rely
  on: a returned value is a root of `f`, and on a constant function the
  iteration fails (in scipy the two secant samples around the seed give
  `q1 == q0` with `p1 != p0`, which raises `RuntimeError`, caught by the
  bare `except:` of `xirr`).
* Python `round(x, 2)` is round-half-to-even on floats; off exact
  half-of-a-cent ties this coincides with `fun x => (round (x * 100) : ℤ) / 100`
  over ℝ, which is what `round2` uses (no claim involves a tie).
-/

namespace IrrApp

/-- Day number of a proleptic-Gregorian calendar date (days since
1970-01-01), following the standard civil-from-days/days-from-civil
algorithm.  Python `date(y, m, d)` subtraction yields the difference of
these numbers. -/
def rataDie (y : Int) (m : Int) (d : Int) : Int :=
  let y2 : Int := if m ≤ 2 then y - 1 else y
  let era : Int := (if 0 ≤ y2 then y2 else y2 - 399) / 400
  let yoe : Int := y2 - era * 400
  let mp : Int := (m + 9) % 12
  let doy : Int := (153 * mp + 2) / 5 + d - 1
  let doe : Int := yoe * 365 + yoe / 4 - yoe / 100 + doy
  era * 146097 + doe - 719468

/-- Calendar year containing a given day number (the inverse direction of
`rataDie`, as used by `pandas .dt.year` for the derived "Year" column). -/
def yearOfRataDie (z : Int) : Int :=
  let z2 : Int := z + 719468
  let era : Int := (if 0 ≤ z2 then z2 else z2 - 146096) / 146097
  let doe : Int := z2 - era * 146097
  let yoe : Int := (doe - doe / 1460 + doe / 36524 - doe / 146096) / 365
  let y : Int := yoe + era * 400
  let doy : Int := doe - (365 * yoe + yoe / 4 - yoe / 100)
  let mp : Int := (5 * doy + 2) / 153
  let m : Int := if mp < 10 then mp + 3 else mp - 9
  if m ≤ 2 then y + 1 else y

/-- Abstract model of `scipy.optimize.newton(f, x0)` as used by `xirr`
(secant method, since no derivative is supplied), wrapped in the `try/except`
of `xirr`: `solve f x0 = some r` models the call returning `r`, `none`
models any raised exception (non-convergence, overflow, zero secant slope).
The two fields record the behaviour the source relies on:
* `solve_root`: a value actually returned by the root finder is a root
  (idealising the floating-point tolerance of scipy to an exact root);
* `solve_const`: on a constant objective the secant update has
  `q1 == q0` with distinct abscissae at the very first step, so scipy
  raises `RuntimeError` and the wrapper yields failure. -/
structure RootFinder where
  solve : (ℝ → ℝ) → ℝ → Option ℝ
  solve_root : ∀ f x0 r, solve f x0 = some r → f r = 0
  solve_const : ∀ f x0 c, (∀ x, f x = c) → solve f x0 = none

/-- Model of the inner `xnpv` closure of `xirr`: the net present value of
the dated cash flows at a candidate rate, discounting actual/365 from the
first date of the list (`t0 = cash_flows[0][0]`). -/
noncomputable def xnpv (cashFlows : List (Int × ℚ)) (rate : ℝ) : ℝ :=
  (cashFlows.map (fun tc =>
    (tc.2 : ℝ) / (1 + rate) ^ ((((tc.1 - (cashFlows.headI).1 : ℤ)) : ℝ) / 365))).sum

/-- Model of Python `round(x, 2)`: round to two decimal digits. -/
noncomputable def round2 (x : ℝ) : ℝ := ((round (x * 100) : ℤ) : ℝ) / 100

/-- Model of `xirr(cash_flows)` from `irr_app.py`: fewer than two entries
or no sign change yield `np.nan` (modelled `none`); otherwise the root
finder is run on `xnpv` seeded at `0.1` and, on success, the rate is
returned as a percentage rounded to two decimals; a raised exception is
swallowed into `np.nan`. -/
noncomputable def xirr (rf : RootFinder) (cashFlows : List (Int × ℚ)) : Option ℝ :=
  if cashFlows.length < 2 then none
  else if (¬ ∃ p ∈ cashFlows, 0 < p.2) ∨ (¬ ∃ p ∈ cashFlows, p.2 < 0) then none
  else
    match rf.solve (xnpv cashFlows) (1 / 10) with
    | some r => some (round2 (r * 100))
    | none => none

/-- Root finder that always reports failure (a legitimate `RootFinder`:
scipy may fail to converge on any input). -/
def trivRF : RootFinder :=
  ⟨fun _ _ => none, fun f x0 r h => by simp at h, fun f x0 c h => rfl⟩

open Classical in
/-- Root finder that answers `r0` exactly when `r0` is a root of a
non-constant objective; used to exhibit concrete successful runs. -/
noncomputable def rfAt (r0 : ℝ) : RootFinder where
  solve f _ := if f r0 = 0 ∧ ∃ x y, f x ≠ f y then some r0 else none
  solve_root := by
    intro f x0 r h
    dsimp only at h
    by_cases hc : f r0 = 0 ∧ ∃ x y, f x ≠ f y
    · rw [if_pos hc] at h
      cases h
      exact hc.1
    · rw [if_neg hc] at h
      cases h
  solve_const := by
    intro f x0 c hc
    dsimp only
    refine if_neg ?_
    rintro ⟨-, x, y, hxy⟩
    exact hxy (by rw [hc x, hc y])

/-- Concrete series of scenario C from the spec: two inflows, no outflow. -/
def scenarioC : List (Int × ℚ) := [(rataDie 2020 1 1, 1000), (rataDie 2021 1 1, 2000)]

/-- Concrete series with a single distinct date but two entries of mixed
sign (passes both the length guard and the sign guard of `xirr`). -/
def sameDaySeries : List (Int × ℚ) := [(rataDie 2020 1 1, 500), (rataDie 2020 1 1, -200)]

/-- Concrete series whose exact internal rate of return is 10%: the gap
2019-01-01 to 2020-01-01 is exactly 365 days, so the actual/365 discount
exponent is 1 and the unique root of the NPV is `r = 1/10`. -/
def series365 : List (Int × ℚ) := [(rataDie 2019 1 1, -1000), (rataDie 2020 1 1, 1100)]

/-- Concrete series of scenario A from the spec.  Mind the calendar: 2020
is a leap year, so the gap 2020-01-01 to 2021-01-01 is 366 days and the
actual/365 discount exponent of the second flow is `366/365`, not 1. -/
def scenarioA : List (Int × ℚ) := [(rataDie 2020 1 1, -1000), (rataDie 2021 1 1, 1100)]

/-- Exact root of the NPV of `scenarioA`: the rate `r` with
`(1 + r) ^ (366/365) = 1.1`. -/
noncomputable def rateA : ℝ := (11 / 10 : ℝ) ^ ((365 : ℝ) / 366) - 1

/-- First-occurrence deduplication, the order semantics of pandas
`Series.unique` (and the partition-key collection of the grouping model
below; pandas `groupby` itself emits keys sorted, an order none of the
claims in scope depend on). -/
def uniqueFirst {α : Type} [DecidableEq α] : List α → List α
  | [] => []
  | a :: l => a :: (uniqueFirst l).filter (fun b => b ≠ a)

/-- Row of the merged table (`filtered_cash_flows.merge(metadata, ...)`,
with the derived "Year" column available through `colVal`): a dated,
signed amount with its deal code, fund and the joined metadata
attributes. -/
structure Record where
  date : Int
  amount : ℚ
  deal : String
  fund : String
  attrs : List (String × String)
deriving DecidableEq

/-- Placeholder for an attribute value absent from the metadata row. -/
def missingVal : String := ""

/-- Projection of a merged row onto a named column, as used by the
grouping keys: "Fund" and the derived "Year" (calendar year of the date)
live beside the metadata attribute columns. -/
def colVal (r : Record) (c : String) : String :=
  if c = "Fund" then r.fund
  else if c = "Year" then toString (yearOfRataDie r.date)
  else (List.lookup c r.attrs).getD missingVal

/-- Key tuple of a row under an ordered list of grouping columns. -/
def recordKey (cols : List String) (r : Record) : List String :=
  cols.map (colVal r)

/-- Partition of a list by a key projection: one group per distinct key,
holding exactly the elements projecting to it (the group content semantics
of pandas `groupby`; pandas emits the groups sorted by key, this model in
first-occurrence order — no claim in scope depends on the order). -/
def groupBy {α κ : Type} [DecidableEq κ] (key : α → κ) (l : List α) :
    List (κ × List α) :=
  (uniqueFirst (l.map key)).map (fun k => (k, l.filter (fun a => key a = k)))

/-- Message of the `ValueError` raised by pandas on an empty key list. -/
def noGroupKeysMsg : String := "No group keys passed!"

/-- Model of `merged_df.groupby(group_columns)` as invoked on line 101:
pandas raises `ValueError: No group keys passed!` when the key list is
empty, and otherwise partitions the rows by their projection onto the key
columns. -/
def pandasGroupBy (cols : List String) (l : List Record) :
    Except String (List (List String × List Record)) :=
  if cols.isEmpty then .error noGroupKeysMsg
  else .ok (groupBy (recordKey cols) l)

/-- Date buckets of a group: one pair per distinct date of the rows,
holding the sum of all amounts on that exact date
(`group_df.groupby("Date")["Amount"].sum()`). -/
def dateBuckets (recs : List Record) : List (Int × ℚ) :=
  (uniqueFirst (recs.map Record.date)).map
    (fun d => (d, ((recs.filter (fun r => r.date = d)).map Record.amount).sum))

/-- Model of the series builder of lines 102-103 (and 126-127):
`group_df.groupby("Date")["Amount"].sum().sort_index()` — net the amounts
by exact date and order the buckets ascending by date. -/
def cfSeries (recs : List Record) : List (Int × ℚ) :=
  List.insertionSort (fun a b => a.1 ≤ b.1) (dateBuckets recs)

/-- Model of the category loop of lines 101-107 over an already-built
partition list: every partition contributes a result row holding the
solver outcome, and additionally its group key joins the skip list when
the solve failed (`np.isnan(irr)`). -/
def irrResultsLoop {κ : Type} (solve : List (Int × ℚ) → Option ℝ) :
    List (κ × List Record) → List (κ × Option ℝ) × List κ
  | [] => ([], [])
  | (k, recs) :: rest =>
    let irr := solve (cfSeries recs)
    let acc := irrResultsLoop solve rest
    ((k, irr) :: acc.1, if irr.isNone then k :: acc.2 else acc.2)

/-- Model of the deal-level loop of lines 122-131: iterate the distinct
deal codes in first-occurrence order (`merged_df["Deal Code"].unique()`),
restrict the merged table to the deal, build and solve its series; every
deal receives a row, and the bare deal code additionally joins the flat
skip list when the solve failed. -/
def dealIrrGo (solve : List (Int × ℚ) → Option ℝ) (records : List Record) :
    List String → List (String × Option ℝ) × List String
  | [] => ([], [])
  | deal :: rest =>
    let irr := solve (cfSeries (records.filter (fun r => r.deal = deal)))
    let acc := dealIrrGo solve records rest
    ((deal, irr) :: acc.1, if irr.isNone then deal :: acc.2 else acc.2)

/-- The deal-level aggregation: run the per-deal body over the distinct
deal codes in first-occurrence order. -/
def dealIrrLoop (solve : List (Int × ℚ) → Option ℝ) (records : List Record) :
    List (String × Option ℝ) × List String :=
  dealIrrGo solve records (uniqueFirst (records.map Record.deal))

/-- Model of line 117, the mean of the IRR column of the category result
table: pandas `Series.mean`
skips NaN entries (modelled `none`) and yields NaN when no value
remains. -/
noncomputable def seriesMean (col : List (Option ℝ)) : Option ℝ :=
  let xs := col.filterMap id
  if xs.isEmpty then none else some (xs.sum / xs.length)

/-- What the display layer receives for the summary metric: a numeric
average, or — since line 118 formats `avg_irr` unconditionally with
`f"{avg_irr:.2f}%"` — the NaN rendered as the text "nan%". -/
inductive MetricDisplay
  | value (x : ℝ)
  | nanText

/-- Model of lines 117-118: the mean of the IRR column handed straight to
`st.metric`, with no no-data branch in between. -/
noncomputable def averageIrrMetric (irrColumn : List (Option ℝ)) : MetricDisplay :=
  match seriesMean irrColumn with
  | some m => MetricDisplay.value m
  | none => MetricDisplay.nanText

/-- Sample merged rows used to instantiate the grouping claims. -/
def rec1 : Record := ⟨rataDie 2020 1 1, -1000, "D1", "F1", [("Industry", "Tech")]⟩

def rec2 : Record := ⟨rataDie 2021 1 1, 1100, "D1", "F1", [("Industry", "Tech")]⟩

def rec3 : Record := ⟨rataDie 2020 6 1, 500, "D2", "F2", [("Industry", "Health")]⟩

/-- Index of the first occurrence of an element in a list (fixing the
equality instance used throughout this development). -/
def firstIndex {α : Type} [DecidableEq α] (l : List α) (a : α) : ℕ := l.indexOf a

instance : IsTotal (Int × ℚ) (fun a b => a.1 ≤ b.1) :=
  ⟨fun a b => le_total a.1 b.1⟩

instance : IsTrans (Int × ℚ) (fun a b => a.1 ≤ b.1) :=
  ⟨fun _ _ _ h1 h2 => le_trans h1 h2⟩

instance : IsAntisymm (Int × ℚ) (fun a b => a.1 < b.1) :=
  ⟨fun _ _ h1 h2 => absurd (h1.trans h2) (lt_irrefl _)⟩

/-- Sample rows for scenario D: two same-day outflows of 500 in one group. -/
def wrec1 : Record := ⟨rataDie 2020 1 1, -500, "D1", "F1", []⟩

def wrec2 : Record := ⟨rataDie 2020 1 1, -500, "D1", "F1", [("Industry", "Tech")]⟩

/-- Anatomy of a successful run of `xirr`: the guards passed, the root
finder was invoked on `xnpv` at seed `0.1` and returned an exact root `r`,
and the reported value is `r` as a rounded percentage. -/
theorem xirr_eq_some {rf : RootFinder} {cashFlows : List (Int × ℚ)} {v : ℝ}
    (h : xirr rf cashFlows = some v) :
    ∃ r, rf.solve (xnpv cashFlows) (1 / 10) = some r ∧
      xnpv cashFlows r = 0 ∧ v = round2 (r * 100) := by
  unfold xirr at h
  split at h
  · exact absurd h (by simp)
  split at h
  · exact absurd h (by simp)
  rcases hs : rf.solve (xnpv cashFlows) (1 / 10) with - | r
  · rw [hs] at h
    exact absurd h (by simp)
  · rw [hs] at h
    refine ⟨r, rfl, rf.solve_root _ _ _ hs, ?_⟩
    cases h
    rfl

/-- Distinct-count below two forces all elements of a list to coincide. -/
theorem all_eq_of_dedup_length_lt_two {l : List Int} (h : l.dedup.length < 2) :
    ∀ a ∈ l, ∀ b ∈ l, a = b := by
  intro a ha b hb
  have ha1 : a ∈ l.dedup := List.mem_dedup.mpr ha
  have hb1 : b ∈ l.dedup := List.mem_dedup.mpr hb
  rcases hd : l.dedup with - | ⟨x, t⟩
  · rw [hd] at ha1
    exact absurd ha1 (by simp)
  · rcases t with - | ⟨y, t2⟩
    · rw [hd] at ha1 hb1
      simp only [List.mem_singleton] at ha1 hb1
      rw [ha1, hb1]
    · rw [hd] at h
      exact absurd h (by simp)

/-- When every entry of a series carries one same date, the net present
value does not depend on the rate: every discount exponent is zero. -/
theorem xnpv_const_of_same_date {s : List (Int × ℚ)}
    (h : ∀ p ∈ s, ∀ q ∈ s, p.1 = q.1) (rate : ℝ) :
    xnpv s rate = (s.map (fun p => (p.2 : ℝ))).sum := by
  unfold xnpv
  rcases s with - | ⟨q, t⟩
  · simp
  · refine congrArg List.sum (List.map_congr_left ?_)
    intro p hp
    have hdq : p.1 = q.1 := h p hp q (List.mem_cons_self q t)
    have hz : (((p.1 - ((q :: t).headI).1 : ℤ)) : ℝ) / 365 = 0 := by
      simp [List.headI, hdq]
    rw [hz, Real.rpow_zero, div_one]

/-- Evaluation of the NPV of `series365` at an arbitrary rate. -/
theorem xnpv_series365 (r : ℝ) : xnpv series365 r = -1000 + 1100 / (1 + r) := by
  have h2 : ((rataDie 2020 1 1 - rataDie 2019 1 1 : ℤ) : ℝ) = 365 := by
    norm_num [rataDie]
  unfold xnpv series365
  simp only [List.headI, List.map_cons, List.map_nil, List.sum_cons, List.sum_nil, sub_self]
  rw [h2]
  norm_num [Real.rpow_one]

open Classical in
/-- Unfolding of the solver exhibited by `rfAt` on a suitable objective. -/
theorem rfAt_solve_eq {r0 : ℝ} {f : ℝ → ℝ} {x0 : ℝ} (h0 : f r0 = 0)
    (hnc : ∃ x y, f x ≠ f y) : (rfAt r0).solve f x0 = some r0 := by
  show (if f r0 = 0 ∧ ∃ x y, f x ≠ f y then some r0 else none) = some r0
  rw [if_pos ⟨h0, hnc⟩]

/-- Successful concrete run of `xirr`: on `series365` a root finder that
finds the exact root `1/10` makes `xirr` report `10.00`. -/
theorem xirr_rfAt_series365 : xirr (rfAt (1 / 10)) series365 = some 10 := by
  have hroot : xnpv series365 (1 / 10) = 0 := by rw [xnpv_series365]; norm_num
  have hnc : ∃ x y, xnpv series365 x ≠ xnpv series365 y :=
    ⟨0, 1 / 10, by rw [xnpv_series365, xnpv_series365]; norm_num⟩
  unfold xirr
  rw [if_neg (by norm_num [series365] : ¬ (series365.length < 2))]
  rw [if_neg (by
    push_neg
    refine ⟨⟨(rataDie 2020 1 1, 1100), ?_, by norm_num⟩,
      ⟨(rataDie 2019 1 1, -1000), ?_, by norm_num⟩⟩
    · simp [series365]
    · simp [series365])]
  rw [rfAt_solve_eq hroot hnc]
  norm_num [round2, round_eq, Int.floor_eq_iff]

/-- C1.  For every net cash flow series on which the solver succeeds, the
returned value equals 100 times a rate at which the net present value
`xnpv` vanishes — the root produced by the (derivative-based) root finder
invoked on `xnpv` at seed `0.10` — rounded to two decimal digits. -/
theorem claim_c1_success_is_rounded_npv_root (rf : RootFinder)
    (cashFlows : List (Int × ℚ)) (v : ℝ) (h : xirr rf cashFlows = some v) :
    ∃ r, rf.solve (xnpv cashFlows) (1 / 10) = some r ∧
      xnpv cashFlows r = 0 ∧ v = round2 (r * 100) :=
  xirr_eq_some h

theorem claim_c1_witness :
    ∃ r, (rfAt (1 / 10)).solve (xnpv series365) (1 / 10) = some r ∧
      xnpv series365 r = 0 ∧ (10 : ℝ) = round2 (r * 100) :=
  claim_c1_success_is_rounded_npv_root (rfAt (1 / 10)) series365 10 xirr_rfAt_series365

/-- C2.  A series whose amounts are all nonnegative, or all nonpositive,
is rejected by the sign-change guard (or the length guard) of `xirr`
before any numerical solving, for every root finder. -/
theorem claim_c2_no_sign_change_unsolvable (rf : RootFinder) (s : List (Int × ℚ))
    (h : (∀ p ∈ s, 0 ≤ p.2) ∨ (∀ p ∈ s, p.2 ≤ 0)) : xirr rf s = none := by
  unfold xirr
  split
  · rfl
  split
  · rfl
  rename_i hsign
  exfalso
  push_neg at hsign
  obtain ⟨⟨p, hp, hppos⟩, q, hq, hqneg⟩ := hsign
  rcases h with hall | hall
  · exact absurd (hall q hq) (by linarith)
  · exact absurd (hall p hp) (by linarith)

theorem claim_c2_witness : xirr trivRF scenarioC = none :=
  claim_c2_no_sign_change_unsolvable trivRF scenarioC (Or.inl (by decide))

/-- C3.  A series with fewer than two distinct dates is unsolvable: with
fewer than two entries the length guard fires; with two or more entries on
one same date either the sign guard fires, or the NPV objective is
constant in the rate and the secant root finder fails. -/
theorem claim_c3_few_distinct_dates_unsolvable (rf : RootFinder) (s : List (Int × ℚ))
    (h : (s.map Prod.fst).dedup.length < 2) : xirr rf s = none := by
  unfold xirr
  split
  · rfl
  split
  · rfl
  have hdates : ∀ p ∈ s, ∀ q ∈ s, p.1 = q.1 := by
    intro p hp q hq
    exact all_eq_of_dedup_length_lt_two h p.1 (List.mem_map_of_mem Prod.fst hp)
      q.1 (List.mem_map_of_mem Prod.fst hq)
  rw [rf.solve_const (xnpv s) (1 / 10) ((s.map (fun p => (p.2 : ℝ))).sum)
    (xnpv_const_of_same_date hdates)]

theorem claim_c3_witness : xirr trivRF sameDaySeries = none :=
  claim_c3_few_distinct_dates_unsolvable trivRF sameDaySeries (by decide)

/-- Evaluation of the NPV of `scenarioA` at an arbitrary rate. -/
theorem xnpv_scenarioA (r : ℝ) :
    xnpv scenarioA r = -1000 + 1100 / (1 + r) ^ ((366 : ℝ) / 365) := by
  have h2 : ((rataDie 2021 1 1 - rataDie 2020 1 1 : ℤ) : ℝ) = 366 := by
    norm_num [rataDie]
  unfold xnpv scenarioA
  simp only [List.headI, List.map_cons, List.map_nil, List.sum_cons, List.sum_nil, sub_self]
  rw [h2]
  push_cast
  norm_num [Real.rpow_zero]

/-- Rational bracketing of `1.1 ^ (365/366)`, by comparing 366-th powers. -/
theorem rateA_q_bounds :
    (109965 / 100000 : ℝ) ≤ (11 / 10 : ℝ) ^ ((365 : ℝ) / 366) ∧
    (11 / 10 : ℝ) ^ ((365 : ℝ) / 366) < (109975 / 100000 : ℝ) := by
  have hqpos : (0 : ℝ) < (11 / 10 : ℝ) ^ ((365 : ℝ) / 366) :=
    Real.rpow_pos_of_pos (by norm_num) _
  have hexp : ((365 : ℝ) / 366) * ((366 : ℕ) : ℝ) = ((365 : ℕ) : ℝ) := by
    push_cast
    norm_num
  have hq366 : ((11 / 10 : ℝ) ^ ((365 : ℝ) / 366)) ^ (366 : ℕ) = (11 / 10 : ℝ) ^ (365 : ℕ) := by
    rw [← Real.rpow_natCast ((11 / 10 : ℝ) ^ ((365 : ℝ) / 366)) 366,
      ← Real.rpow_mul (by norm_num : (0 : ℝ) ≤ 11 / 10), hexp, Real.rpow_natCast]
  constructor
  · refine le_of_pow_le_pow_left₀ (by norm_num : (366 : ℕ) ≠ 0) (le_of_lt hqpos) ?_
    rw [hq366]
    norm_num
  · refine lt_of_pow_lt_pow_left₀ 366 (by norm_num : (0 : ℝ) ≤ 109975 / 100000) ?_
    rw [hq366]
    norm_num

/-- Rounding the exact root of scenario A as a percentage to two decimal
digits gives 9.97 (the root is about 9.9714%, below the 9.995 threshold
needed for 10.00). -/
theorem round2_rateA : round2 (rateA * 100) = 997 / 100 := by
  obtain ⟨hlo, hhi⟩ := rateA_q_bounds
  unfold round2 rateA
  have hr : round (((11 / 10 : ℝ) ^ ((365 : ℝ) / 366) - 1) * 100 * 100) = 997 := by
    rw [round_eq, Int.floor_eq_iff]
    constructor
    · push_cast
      linarith
    · push_cast
      linarith
  rw [hr]
  norm_num

/-- Value of the NPV of scenario A at the candidate rate zero (used to
show the objective is not constant). -/
theorem xnpv_scenarioA_at_zero : xnpv scenarioA 0 = 100 := by
  rw [xnpv_scenarioA]
  norm_num [Real.one_rpow]

/-- Confirmation that `rateA` is a root of the NPV of scenario A. -/
theorem xnpv_scenarioA_rateA : xnpv scenarioA rateA = 0 := by
  have hq : (1 : ℝ) + rateA = (11 / 10 : ℝ) ^ ((365 : ℝ) / 366) := by
    unfold rateA
    ring
  have hpow : (1 + rateA) ^ ((366 : ℝ) / 365) = 11 / 10 := by
    rw [hq, ← Real.rpow_mul (by norm_num : (0 : ℝ) ≤ 11 / 10),
      show ((365 : ℝ) / 366) * ((366 : ℝ) / 365) = 1 by norm_num, Real.rpow_one]
  rw [xnpv_scenarioA, hpow]
  norm_num

/-- Uniqueness of the root: every real rate at which the NPV of scenario A
vanishes equals `rateA`.  Rates with `1 + r < 0` make the real power
negative (the cosine factor of the real power of a negative base at
exponent `366/365` is negative), and `1 + r = 0` annihilates the second
term, so no root exists outside `1 + r > 0`. -/
theorem root_of_scenarioA {r : ℝ} (h : xnpv scenarioA r = 0) : r = rateA := by
  rw [xnpv_scenarioA] at h
  rcases lt_trichotomy (1 + r) 0 with hb | hb | hb
  · exfalso
    have hsplit : (366 : ℝ) / 365 * Real.pi = Real.pi + Real.pi / 365 := by
      ring
    have hcosppos : 0 < Real.cos (Real.pi / 365) := by
      refine Real.cos_pos_of_mem_Ioo ⟨?_, ?_⟩
      · have h1 : -(Real.pi / 2) < 0 := by
          have := Real.pi_pos
          linarith
        have h2 : (0 : ℝ) < Real.pi / 365 := by positivity
        linarith
      · exact div_lt_div_of_pos_left Real.pi_pos (by norm_num) (by norm_num)
    have hcos : Real.cos ((366 : ℝ) / 365 * Real.pi) < 0 := by
      rw [hsplit, Real.cos_add, Real.cos_pi, Real.sin_pi]
      simp only [neg_one_mul, zero_mul, sub_zero]
      linarith
    have hneg : (1 + r) ^ ((366 : ℝ) / 365) < 0 := by
      rw [Real.rpow_def_of_neg hb]
      exact mul_neg_of_pos_of_neg (Real.exp_pos _) hcos
    have hdiv : 1100 / (1 + r) ^ ((366 : ℝ) / 365) < 0 :=
      div_neg_of_pos_of_neg (by norm_num) hneg
    linarith
  · rw [hb, Real.zero_rpow (by norm_num : ((366 : ℝ) / 365) ≠ 0)] at h
    norm_num at h
  · have hgpos : 0 < (1 + r) ^ ((366 : ℝ) / 365) := Real.rpow_pos_of_pos hb _
    have hpow : (1 + r) ^ ((366 : ℝ) / 365) = 11 / 10 := by
      have hg0 : (1 + r) ^ ((366 : ℝ) / 365) ≠ 0 := ne_of_gt hgpos
      field_simp at h
      linarith
    have hback : ((1 + r) ^ ((366 : ℝ) / 365)) ^ ((365 : ℝ) / 366) = 1 + r := by
      rw [← Real.rpow_mul (le_of_lt hb),
        show ((366 : ℝ) / 365) * ((365 : ℝ) / 366) = 1 by norm_num, Real.rpow_one]
    have : (1 : ℝ) + r = (11 / 10 : ℝ) ^ ((365 : ℝ) / 366) := by
      rw [← hback, hpow]
    unfold rateA
    linarith

/-- Successful concrete run of `xirr` on scenario A with the root finder
that finds the exact root: the reported percentage is 9.97. -/
theorem xirr_rfAt_scenarioA : xirr (rfAt rateA) scenarioA = some (997 / 100) := by
  have hnc : ∃ x y, xnpv scenarioA x ≠ xnpv scenarioA y :=
    ⟨0, rateA, by rw [xnpv_scenarioA_at_zero, xnpv_scenarioA_rateA]; norm_num⟩
  unfold xirr
  rw [if_neg (by norm_num [scenarioA] : ¬ (scenarioA.length < 2))]
  rw [if_neg (by
    push_neg
    refine ⟨⟨(rataDie 2021 1 1, 1100), ?_, by norm_num⟩,
      ⟨(rataDie 2020 1 1, -1000), ?_, by norm_num⟩⟩
    · simp [scenarioA]
    · simp [scenarioA])]
  rw [rfAt_solve_eq xnpv_scenarioA_rateA hnc]
  show some (round2 (rateA * 100)) = some (997 / 100)
  rw [round2_rateA]

/-- C4, counterexample.  On the series of scenario A a run of the solver
that converges reports 9.97, not 10.00: 2020 is a leap year, so the
discount exponent is `366/365` and the root is `1.1 ^ (365/366) - 1`,
about 9.9714%. -/
theorem claim_c4_counterexample :
    xirr (rfAt rateA) scenarioA = some (997 / 100) ∧ ((997 : ℝ) / 100) ≠ 10 :=
  ⟨xirr_rfAt_scenarioA, by norm_num⟩

/-- C4, amended.  On the series [(2020-01-01, -1000), (2021-01-01, 1100)],
whenever the solver converges the returned rate is 9.97 (percent), the
unique root of the NPV expressed as a rounded percentage. -/
theorem claim_c4_converging_value (rf : RootFinder) (v : ℝ)
    (h : xirr rf scenarioA = some v) : v = 997 / 100 := by
  obtain ⟨r, -, hroot, hv⟩ := xirr_eq_some h
  rw [hv, root_of_scenarioA hroot, round2_rateA]

theorem claim_c4_witness : (997 / 100 : ℝ) = 997 / 100 :=
  claim_c4_converging_value (rfAt rateA) (997 / 100) xirr_rfAt_scenarioA

/-- Membership is preserved by first-occurrence deduplication. -/
theorem mem_uniqueFirst {α : Type} [DecidableEq α] (l : List α) (x : α) :
    x ∈ uniqueFirst l ↔ x ∈ l := by
  induction l with
  | nil => simp [uniqueFirst]
  | cons a l ih =>
    by_cases hxa : x = a
    · subst hxa
      simp [uniqueFirst]
    · simp [uniqueFirst, List.mem_filter, hxa, ih]

/-- First-occurrence deduplication leaves no duplicates. -/
theorem nodup_uniqueFirst {α : Type} [DecidableEq α] (l : List α) :
    (uniqueFirst l).Nodup := by
  induction l with
  | nil => simp [uniqueFirst]
  | cons a l ih =>
    rw [uniqueFirst]
    refine List.nodup_cons.mpr ⟨?_, ih.filter _⟩
    intro ha
    have := List.of_mem_filter ha
    simp at this

/-- Elements of a first-occurrence deduplication are ordered by the index
of their first occurrence in the original list. -/
theorem uniqueFirst_pairwise_indexOf {α : Type} [DecidableEq α] (l : List α) :
    (uniqueFirst l).Pairwise (fun x y => l.indexOf x < l.indexOf y) := by
  induction l with
  | nil => simp [uniqueFirst]
  | cons a l ih =>
    rw [uniqueFirst]
    refine List.Pairwise.cons ?_ ?_
    · intro b hb
      have hbne : b ≠ a := by
        have := List.of_mem_filter hb
        simpa using this
      rw [List.indexOf_cons_self, List.indexOf_cons_ne l (Ne.symm hbne)]
      exact Nat.succ_pos _
    · refine (List.Pairwise.sublist (List.filter_sublist _) ih).imp_of_mem ?_
      intro x y hx hy hxy
      have hxa : x ≠ a := by
        have := List.of_mem_filter hx
        simpa using this
      have hya : y ≠ a := by
        have := List.of_mem_filter hy
        simpa using this
      rw [List.indexOf_cons_ne l (Ne.symm hxa), List.indexOf_cons_ne l (Ne.symm hya)]
      exact Nat.succ_lt_succ hxy

/-- First-occurrence deduplication is a sublist of the original list. -/
theorem uniqueFirst_sublist {α : Type} [DecidableEq α] (l : List α) :
    (uniqueFirst l).Sublist l := by
  induction l with
  | nil => simp [uniqueFirst]
  | cons a l ih =>
    rw [uniqueFirst]
    exact ((List.filter_sublist _).trans ih).cons₂ a

/-- Every emitted group holds exactly the input elements projecting to its
key, and its key occurs among the projected keys of the input. -/
theorem groupBy_elem {α κ : Type} [DecidableEq κ] {key : α → κ} {l : List α}
    {g : κ × List α} (hg : g ∈ groupBy key l) :
    g.2 = l.filter (fun a => key a = g.1) ∧ g.1 ∈ l.map key := by
  unfold groupBy at hg
  obtain ⟨k, hk, he⟩ := List.mem_map.mp hg
  subst he
  exact ⟨rfl, (mem_uniqueFirst _ _).mp hk⟩

/-- Partition properties of `groupBy`: exhaustive, within the input,
pairwise disjoint, and free of empty groups. -/
theorem groupBy_partition {α κ : Type} [DecidableEq κ] (key : α → κ) (l : List α) :
    (∀ r ∈ l, ∃ g ∈ groupBy key l, r ∈ g.2) ∧
    (∀ g ∈ groupBy key l, ∀ r ∈ g.2, r ∈ l) ∧
    (∀ g ∈ groupBy key l, ∀ g2 ∈ groupBy key l, g ≠ g2 → ∀ r ∈ g.2, r ∉ g2.2) ∧
    (∀ g ∈ groupBy key l, g.2 ≠ []) := by
  refine ⟨?_, ?_, ?_, ?_⟩
  · intro r hr
    refine ⟨(key r, l.filter (fun a => key a = key r)), ?_, ?_⟩
    · unfold groupBy
      exact List.mem_map_of_mem _ ((mem_uniqueFirst _ _).mpr (List.mem_map_of_mem key hr))
    · simp [List.mem_filter, hr]
  · intro g hg r hr
    rw [(groupBy_elem hg).1] at hr
    exact List.mem_of_mem_filter hr
  · intro g hg g2 hg2 hne r hr hr2
    rw [(groupBy_elem hg).1] at hr
    rw [(groupBy_elem hg2).1] at hr2
    have h1 : key r = g.1 := by simpa using List.of_mem_filter hr
    have h2 : key r = g2.1 := by simpa using List.of_mem_filter hr2
    refine hne (Prod.ext (h1.symm.trans h2) ?_)
    rw [(groupBy_elem hg).1, (groupBy_elem hg2).1, h1.symm.trans h2]
  · intro g hg
    obtain ⟨e1, hmem⟩ := groupBy_elem hg
    obtain ⟨a, ha, hk⟩ := List.mem_map.mp hmem
    have hag : a ∈ g.2 := by
      rw [e1]
      simp [List.mem_filter, ha, hk]
    exact List.ne_nil_of_mem hag

/-- C5.  For every partitioning run of the category loop: every partition
contributes exactly one result row, whose IRR field is precisely the
solver outcome on the net series of the partition (present iff the solver
converged), and the skip list holds exactly the group keys of the
partitions whose solve failed. -/
theorem claim_c5_results_track_solver {κ : Type} (solve : List (Int × ℚ) → Option ℝ)
    (groups : List (κ × List Record)) :
    (irrResultsLoop solve groups).1 =
      groups.map (fun g => (g.1, solve (cfSeries g.2))) ∧
    (irrResultsLoop solve groups).2 =
      (groups.filter (fun g => (solve (cfSeries g.2)).isNone)).map Prod.fst := by
  induction groups with
  | nil => exact ⟨rfl, rfl⟩
  | cons g rest ih =>
    rcases g with ⟨k, recs⟩
    by_cases hn : (solve (cfSeries recs)).isNone = true
    · exact ⟨by simp [irrResultsLoop, ih.1],
        by simp [irrResultsLoop, List.filter_cons, hn, ih.2]⟩
    · exact ⟨by simp [irrResultsLoop, ih.1],
        by simp [irrResultsLoop, List.filter_cons, hn, ih.2]⟩

/-- C6.  With a non-empty key set the grouping succeeds (no pandas
`ValueError`) and yields a strict partition: every input record lies in a
group, groups contain only input records, two different groups share no
record, and no empty group is emitted. -/
theorem claim_c6_grouping_is_partition (cols : List String) (l : List Record)
    (h : cols ≠ []) :
    pandasGroupBy cols l = Except.ok (groupBy (recordKey cols) l) ∧
    (∀ r ∈ l, ∃ g ∈ groupBy (recordKey cols) l, r ∈ g.2) ∧
    (∀ g ∈ groupBy (recordKey cols) l, ∀ r ∈ g.2, r ∈ l) ∧
    (∀ g ∈ groupBy (recordKey cols) l, ∀ g2 ∈ groupBy (recordKey cols) l,
      g ≠ g2 → ∀ r ∈ g.2, r ∉ g2.2) ∧
    (∀ g ∈ groupBy (recordKey cols) l, g.2 ≠ []) := by
  obtain ⟨p1, p2, p3, p4⟩ := groupBy_partition (recordKey cols) l
  refine ⟨?_, p1, p2, p3, p4⟩
  unfold pandasGroupBy
  rw [if_neg]
  simpa using h

theorem claim_c6_witness :
    pandasGroupBy ["Fund"] [rec1, rec2, rec3] =
      Except.ok (groupBy (recordKey ["Fund"]) [rec1, rec2, rec3]) ∧
    (∀ r ∈ [rec1, rec2, rec3],
      ∃ g ∈ groupBy (recordKey ["Fund"]) [rec1, rec2, rec3], r ∈ g.2) ∧
    (∀ g ∈ groupBy (recordKey ["Fund"]) [rec1, rec2, rec3], ∀ r ∈ g.2,
      r ∈ [rec1, rec2, rec3]) ∧
    (∀ g ∈ groupBy (recordKey ["Fund"]) [rec1, rec2, rec3],
      ∀ g2 ∈ groupBy (recordKey ["Fund"]) [rec1, rec2, rec3],
        g ≠ g2 → ∀ r ∈ g.2, r ∉ g2.2) ∧
    (∀ g ∈ groupBy (recordKey ["Fund"]) [rec1, rec2, rec3], g.2 ≠ []) :=
  claim_c6_grouping_is_partition ["Fund"] [rec1, rec2, rec3] (by decide)

/-- C8.  Invoking the grouping with an empty key list does not produce a
single all-encompassing group: pandas `DataFrame.groupby([])` raises
`ValueError: No group keys passed!`, which the surrounding code does not
catch. -/
theorem claim_c8_empty_keys_raise (l : List Record) :
    pandasGroupBy [] l = Except.error noGroupKeysMsg := rfl

/-- C9.  On a category result whose only IRR is NaN (every solve failed),
the present-value set is empty, `Series.mean` returns NaN rather than an
explicit no-data value, and line 118 hands that NaN straight to the
display metric, where it renders as the text "nan%". -/
theorem claim_c9_nan_reaches_display :
    (([none] : List (Option ℝ)).filterMap id = []) ∧
    seriesMean [none] = none ∧
    averageIrrMetric [none] = MetricDisplay.nanText :=
  ⟨rfl, rfl, rfl⟩

/-- Sorting does not change the multiset of date buckets. -/
theorem cfSeries_perm_buckets (recs : List Record) :
    (cfSeries recs).Perm (dateBuckets recs) :=
  List.perm_insertionSort _ _

/-- The dates of the buckets are the distinct dates of the rows. -/
theorem dateBuckets_fst (recs : List Record) :
    (dateBuckets recs).map Prod.fst = uniqueFirst (recs.map Record.date) := by
  unfold dateBuckets
  rw [List.map_map]
  rw [show (Prod.fst ∘ fun d : Int =>
      (d, ((recs.filter (fun r => r.date = d)).map Record.amount).sum)) = id from rfl]
  exact List.map_id _

/-- The built series carries no duplicate date. -/
theorem cfSeries_fst_nodup (recs : List Record) :
    ((cfSeries recs).map Prod.fst).Nodup := by
  have hperm : ((cfSeries recs).map Prod.fst).Perm ((dateBuckets recs).map Prod.fst) :=
    (cfSeries_perm_buckets recs).map Prod.fst
  rw [dateBuckets_fst] at hperm
  exact (List.Perm.nodup_iff hperm).mpr (nodup_uniqueFirst _)

/-- The built series is strictly increasing by date: sorted by the sort
step and with pairwise-distinct dates. -/
theorem cfSeries_strict_sorted (recs : List Record) :
    (cfSeries recs).Pairwise (fun a b => a.1 < b.1) := by
  have hs : List.Sorted (fun a b : Int × ℚ => a.1 ≤ b.1) (cfSeries recs) :=
    List.sorted_insertionSort _ _
  have hn : ((cfSeries recs).map Prod.fst).Nodup := cfSeries_fst_nodup recs
  have hne : (cfSeries recs).Pairwise (fun a b => a.1 ≠ b.1) := List.pairwise_map.mp hn
  exact (hs.and hne).imp (fun h => lt_of_le_of_ne h.1 h.2)

/-- The built series is invariant under permutation of the input rows. -/
theorem cfSeries_eq_of_perm {recs recs2 : List Record} (hperm : recs.Perm recs2) :
    cfSeries recs = cfSeries recs2 := by
  have hfun : ∀ d : Int,
      ((recs.filter (fun r => r.date = d)).map Record.amount).sum =
      ((recs2.filter (fun r => r.date = d)).map Record.amount).sum :=
    fun d => List.Perm.sum_eq ((hperm.filter _).map _)
  have hkeys : (uniqueFirst (recs.map Record.date)).Perm
      (uniqueFirst (recs2.map Record.date)) := by
    rw [List.perm_ext_iff_of_nodup (nodup_uniqueFirst _) (nodup_uniqueFirst _)]
    intro d
    rw [mem_uniqueFirst, mem_uniqueFirst]
    exact (hperm.map Record.date).mem_iff
  have hbuckets : (dateBuckets recs).Perm (dateBuckets recs2) := by
    unfold dateBuckets
    have hfe : (fun d : Int =>
          (d, ((recs.filter (fun r => r.date = d)).map Record.amount).sum)) =
        (fun d : Int =>
          (d, ((recs2.filter (fun r => r.date = d)).map Record.amount).sum)) := by
      funext d
      rw [hfun d]
    rw [hfe]
    exact hkeys.map _
  have hp : (cfSeries recs).Perm (cfSeries recs2) :=
    ((cfSeries_perm_buckets recs).trans hbuckets).trans (cfSeries_perm_buckets recs2).symm
  exact List.eq_of_perm_of_sorted hp (cfSeries_strict_sorted recs)
    (cfSeries_strict_sorted recs2)

/-- Every entry of the built series is the net amount of its date. -/
theorem cfSeries_mem {recs : List Record} {p : Int × ℚ} (hp : p ∈ cfSeries recs) :
    p.2 = ((recs.filter (fun r => r.date = p.1)).map Record.amount).sum ∧
    p.1 ∈ recs.map Record.date := by
  have hb : p ∈ dateBuckets recs := (cfSeries_perm_buckets recs).mem_iff.mp hp
  unfold dateBuckets at hb
  obtain ⟨d, hd, he⟩ := List.mem_map.mp hb
  subst he
  exact ⟨rfl, (mem_uniqueFirst _ _).mp hd⟩

/-- Every date of the rows contributes its netted bucket to the series. -/
theorem cfSeries_covers {recs : List Record} {d : Int}
    (hd : d ∈ recs.map Record.date) :
    (d, ((recs.filter (fun r => r.date = d)).map Record.amount).sum) ∈ cfSeries recs := by
  rw [(cfSeries_perm_buckets recs).mem_iff]
  unfold dateBuckets
  exact List.mem_map_of_mem _ ((mem_uniqueFirst _ _).mpr hd)

/-- C7.  The series builder nets all amounts sharing an exact date into a
single entry, emits exactly the distinct dates of its input, orders the
entries strictly ascending by date, and produces the same series for any
permutation of the input rows. -/
theorem claim_c7_builder_nets_and_sorts (recs recs2 : List Record)
    (hperm : recs.Perm recs2) :
    cfSeries recs = cfSeries recs2 ∧
    (cfSeries recs).Pairwise (fun a b => a.1 < b.1) ∧
    (∀ p ∈ cfSeries recs,
      p.2 = ((recs.filter (fun r => r.date = p.1)).map Record.amount).sum ∧
      p.1 ∈ recs.map Record.date) ∧
    (∀ d ∈ recs.map Record.date,
      (d, ((recs.filter (fun r => r.date = d)).map Record.amount).sum) ∈ cfSeries recs) :=
  ⟨cfSeries_eq_of_perm hperm, cfSeries_strict_sorted recs,
   fun _ hp => cfSeries_mem hp, fun _ hd => cfSeries_covers hd⟩

theorem claim_c7_witness :
    cfSeries [wrec1, wrec2] = [(rataDie 2020 1 1, -1000)] ∧
    (cfSeries [wrec1, wrec2] = cfSeries [wrec2, wrec1] ∧
     (cfSeries [wrec1, wrec2]).Pairwise (fun a b => a.1 < b.1) ∧
     (∀ p ∈ cfSeries [wrec1, wrec2],
       p.2 = (([wrec1, wrec2].filter (fun r => r.date = p.1)).map Record.amount).sum ∧
       p.1 ∈ [wrec1, wrec2].map Record.date) ∧
     (∀ d ∈ [wrec1, wrec2].map Record.date,
       (d, (([wrec1, wrec2].filter (fun r => r.date = d)).map Record.amount).sum) ∈
         cfSeries [wrec1, wrec2])) :=
  ⟨by
    norm_num [cfSeries, dateBuckets, uniqueFirst, wrec1, wrec2,
      List.insertionSort, List.orderedInsert, List.filter],
   claim_c7_builder_nets_and_sorts [wrec1, wrec2] [wrec2, wrec1]
     (List.Perm.swap wrec2 wrec1 [])⟩

/-- Unfolded behaviour of the deal-level body on an arbitrary list of deal
codes: one row per code holding the solver outcome on the restricted
table, and the skip list keeps exactly the codes whose solve failed. -/
theorem dealIrrGo_spec (solve : List (Int × ℚ) → Option ℝ) (records : List Record) :
    ∀ ds : List String,
      (dealIrrGo solve records ds).1 =
        ds.map (fun d => (d, solve (cfSeries (records.filter (fun r => r.deal = d))))) ∧
      (dealIrrGo solve records ds).2 =
        ds.filter (fun d => (solve (cfSeries (records.filter (fun r => r.deal = d)))).isNone)
  | [] => ⟨rfl, rfl⟩
  | deal :: rest => by
    obtain ⟨ih1, ih2⟩ := dealIrrGo_spec solve records rest
    by_cases hn : (solve (cfSeries (records.filter (fun r => r.deal = deal)))).isNone = true
    · exact ⟨by simp [dealIrrGo, ih1],
        by simp [dealIrrGo, List.filter_cons, hn, ih2]⟩
    · exact ⟨by simp [dealIrrGo, ih1],
        by simp [dealIrrGo, List.filter_cons, hn, ih2]⟩

/-- C10.  The deal-level aggregator emits exactly one row per distinct
deal code of the merged table, in first-occurrence order (pairwise
increasing first-occurrence indices); every row — also for a failed solve
— holds the solver outcome on the rows of its deal, and the flat skip list
holds exactly the bare deal codes of the rows whose IRR is absent. -/
theorem claim_c10_deal_level_rows (solve : List (Int × ℚ) → Option ℝ)
    (records : List Record) :
    (dealIrrLoop solve records).1.map Prod.fst = uniqueFirst (records.map Record.deal) ∧
    ((dealIrrLoop solve records).1.map Prod.fst).Nodup ∧
    (∀ d, d ∈ (dealIrrLoop solve records).1.map Prod.fst ↔ d ∈ records.map Record.deal) ∧
    ((dealIrrLoop solve records).1.map Prod.fst).Pairwise
      (fun a b => firstIndex (records.map Record.deal) a <
        firstIndex (records.map Record.deal) b) ∧
    (∀ p ∈ (dealIrrLoop solve records).1,
      p.2 = solve (cfSeries (records.filter (fun r => r.deal = p.1)))) ∧
    (dealIrrLoop solve records).2 =
      ((dealIrrLoop solve records).1.filter (fun p => p.2.isNone)).map Prod.fst := by
  obtain ⟨h1, h2⟩ := dealIrrGo_spec solve records (uniqueFirst (records.map Record.deal))
  have hfst : (dealIrrLoop solve records).1.map Prod.fst =
      uniqueFirst (records.map Record.deal) := by
    show (dealIrrGo solve records _).1.map Prod.fst = _
    rw [h1, List.map_map]
    rw [show (Prod.fst ∘ fun d =>
        (d, solve (cfSeries (records.filter (fun r => r.deal = d))))) = id from rfl]
    exact List.map_id _
  refine ⟨hfst, ?_, ?_, ?_, ?_, ?_⟩
  · rw [hfst]
    exact nodup_uniqueFirst _
  · intro d
    rw [hfst, mem_uniqueFirst]
  · rw [hfst]
    exact uniqueFirst_pairwise_indexOf _
  · intro p hp
    have hp2 : p ∈ (uniqueFirst (records.map Record.deal)).map
        (fun d => (d, solve (cfSeries (records.filter (fun r => r.deal = d))))) := by
      rw [← h1]
      exact hp
    obtain ⟨d, hd, he⟩ := List.mem_map.mp hp2
    subst he
    rfl
  · show (dealIrrGo solve records _).2 =
      ((dealIrrGo solve records _).1.filter (fun p => p.2.isNone)).map Prod.fst
    rw [h1, h2, List.filter_map, List.map_map]
    rw [show ((fun p : String × Option ℝ => p.2.isNone) ∘ fun d =>
        (d, solve (cfSeries (records.filter (fun r => r.deal = d))))) =
        (fun d => (solve (cfSeries (records.filter (fun r => r.deal = d)))).isNone)
        from rfl]
    rw [show (Prod.fst ∘ fun d =>
        (d, solve (cfSeries (records.filter (fun r => r.deal = d))))) = id from rfl]
    exact (List.map_id _).symm

end IrrApp
